import Mathlib

/-!
Verification of the serializer contract of src/serializer/serializer.hpp
(rethinkdb).  The header declares an abstract block-storage serializer:
fixed-size blocks named by integer ids, an index mapping each id to a
(token, recency, delete-bit) triple that is mutated in atomic batches,
block read/write returning opaque block tokens, and a grouped-write
operation composing both.  The header itself contains the concrete
definitions of index_write_op_t, write_t and the helper templates
serializer_index_write / serializer_block_write; the virtual operations
(index_write, block_write, block_read, max_block_id, get_recency,
get_delete_bit, index_read, do_write) are implemented elsewhere and are
modelled here from the spec.
-/

/-- block_id_t: a non-negative integer naming a logical block slot. -/
abbrev block_id_t : Type := Nat

/-- standard_block_token_t: opaque shared handle to a physical block
location.  Modelled as the index of the block in the store. -/
abbrev standard_block_token_t : Type := Nat

/-- repli_timestamp_t: a recency timestamp with a distinguished invalid
value; the invalid value is modelled as none. -/
abbrev repli_timestamp_t : Type := Option Nat

/-- The distinguished invalid recency value (repli_timestamp_t::invalid). -/
def repli_timestamp_invalid : repli_timestamp_t := none

/-- One committed index triple for a block id: token (or none), recency,
delete bit.  Matches the three pieces of information the index stores per
id (serializer.hpp lines 69-72). -/
structure index_entry_t where
  token : Option standard_block_token_t
  recency : repli_timestamp_t
  delete_bit : Bool

/-- The entry of a block id never touched by any index write: no token,
invalid recency, delete bit clear. -/
def default_entry : index_entry_t :=
  { token := none, recency := repli_timestamp_invalid, delete_bit := false }

/-- index_write_op_t (serializer.hpp lines 15-27): a sparse update to one
index entry.  Each field is independently set or left unchanged; the token
field distinguishes "leave unchanged" (none), "remove from lba"
(some none) and "set to token" (some (some t)).  The field defaults mirror
the constructor defaults (boost::none for everything but the block id). -/
structure index_write_op_t where
  block_id : block_id_t
  token : Option (Option standard_block_token_t) := none
  recency : Option repli_timestamp_t := none
  delete_bit : Option Bool := none

/-- Effect of one index_write_op_t on the entry of its own block id: every
field that the op sets is overwritten, the others are kept. -/
def apply_to_entry (e : index_entry_t) (op : index_write_op_t) : index_entry_t :=
  { token := op.token.getD e.token
    recency := op.recency.getD e.recency
    delete_bit := op.delete_bit.getD e.delete_bit }

/-- Effect of one index_write_op_t on the whole index: only the entry of
op.block_id changes. -/
def apply_write_op (ix : block_id_t → index_entry_t) (op : index_write_op_t) :
    block_id_t → index_entry_t :=
  fun id => if id = op.block_id then apply_to_entry (ix id) op else ix id

/-- Effect of a batch of index write ops, applied in order. -/
def index_apply_ops (ix : block_id_t → index_entry_t) (ops : List index_write_op_t) :
    block_id_t → index_entry_t :=
  ops.foldl apply_write_op ix

/-- The model state of a serializer instance: the index, the store of
written blocks (a token is a position in the store), the set of launched
block writes whose completion callback has not fired yet, the exclusive
upper bound on block ids, and the fixed block size. -/
structure SerializerState where
  index : block_id_t → index_entry_t
  store : List (List Nat)
  pending : List standard_block_token_t
  next_block_id : Nat
  block_size : Nat

/-- A freshly created serializer with the given block size: empty index,
empty store, nothing pending. -/
def initState (bs : Nat) : SerializerState :=
  { index := fun _ => default_entry
    store := []
    pending := []
    next_block_id := 0
    block_size := bs }

/-- Modelled from the spec: max_block_id() (virtual, implemented by the
storage engine) returns a block id such that every existing block has an
id less than it. -/
def max_block_id (s : SerializerState) : block_id_t := s.next_block_id

/-- Modelled from the spec: get_recency(id) returns the block's recency,
possibly repli_timestamp_invalid; it never fails. -/
def get_recency (s : SerializerState) (id : block_id_t) : repli_timestamp_t :=
  (s.index id).recency

/-- Modelled from the spec: get_delete_bit(id) reads the block's delete
bit; it never fails. -/
def get_delete_bit (s : SerializerState) (id : block_id_t) : Bool :=
  (s.index id).delete_bit

/-- Modelled from the spec: index_read(id) returns the token of the
block's current data, or none. -/
def index_read (s : SerializerState) (id : block_id_t) :
    Option standard_block_token_t :=
  (s.index id).token

/-- The fixed block size of the instance (get_block_size). -/
def get_block_size (s : SerializerState) : Nat := s.block_size

/-- Modelled from the spec: index_write(ops, io_account) (virtual,
implemented by the storage engine) applies all given index operations as
one atomic transition; an entry for an id at or above the current bound
extends the id space.  The io account only affects scheduling and is
ignored by the state transition. -/
def index_write (s : SerializerState) (ops : List index_write_op_t)
    (_io_account : Nat) : SerializerState :=
  { s with
    index := index_apply_ops s.index ops
    next_block_id := ops.foldl (fun m op => max m (op.block_id + 1)) s.next_block_id }

/-- serializer_index_write (serializer.hpp lines 154-159): builds the
one-element vector holding op and calls index_write on it. -/
def serializer_index_write (s : SerializerState) (op : index_write_op_t)
    (io_account : Nat) : SerializerState :=
  index_write s [op] io_account

/-- Modelled from the spec: the non-blocking block_write (virtual,
implemented by the storage engine) hands the buffer to the engine,
returns a fresh token naming its location, and registers a completion
that fires once the write is durable.  If the block id is omitted
(NULL_BLOCK_ID, modelled as none) a fresh id is assigned.  Returns the
token, the id the write was attributed to, and the new state. -/
def block_write (s : SerializerState) (buf : List Nat)
    (obid : Option block_id_t) (_io_account : Nat) :
    standard_block_token_t × block_id_t × SerializerState :=
  let token := s.store.length
  (token, obid.getD s.next_block_id,
    { s with
      store := s.store ++ [buf]
      pending := s.pending ++ [token]
      next_block_id := if obid.isNone then s.next_block_id + 1 else s.next_block_id })

/-- Modelled from the spec: the blocking block_read fills the caller's
buffer with the bytes named by the token; modelled as returning those
bytes. -/
def block_read (s : SerializerState) (token : standard_block_token_t) :
    Option (List Nat) :=
  s.store[token]?

/-- The completion callback of the write that produced the given token
fires: the write is no longer pending. -/
def wait_for_completion (s : SerializerState) (token : standard_block_token_t) :
    SerializerState :=
  { s with pending := s.pending.erase token }

/-- serializer_block_write, blocking template (serializer.hpp lines
177-186, and lines 167-175 for the omitted-id form): launches the
non-blocking block_write with a condition-variable callback, waits on the
condition until the completion fires, and returns the token the launch
produced. -/
def serializer_block_write (s : SerializerState) (buf : List Nat)
    (obid : Option block_id_t) (io_account : Nat) :
    standard_block_token_t × SerializerState :=
  let launched := block_write s buf obid io_account
  (launched.1, wait_for_completion launched.2.2 launched.1)

/-- write_t (serializer.hpp lines 113-133): one per-block write intent of
a grouped write.  The action is a closed sum of update (new buffer and
recency), delete, and touch (recency only).  The io and launch callbacks
of update_t are notification channels, modelled by the pending set and the
token returned at launch. -/
inductive write_action_t
  | update (buf : List Nat) (recency : repli_timestamp_t)
  | delete
  | touch (recency : repli_timestamp_t)

/-- write_t: a block id together with its action. -/
structure write_t where
  block_id : block_id_t
  action : write_action_t

/-- write_t::make_touch (serializer.hpp line 127). -/
def write_t.make_touch (id : block_id_t) (recency : repli_timestamp_t) : write_t :=
  { block_id := id, action := .touch recency }

/-- write_t::make_update (serializer.hpp lines 128-130). -/
def write_t.make_update (id : block_id_t) (recency : repli_timestamp_t)
    (buf : List Nat) : write_t :=
  { block_id := id, action := .update buf recency }

/-- write_t::make_delete (serializer.hpp line 131). -/
def write_t.make_delete (id : block_id_t) : write_t :=
  { block_id := id, action := .delete }

/-- Modelled from the spec: phase 1 of do_write (implemented in
serializer.cc, not in this tree) launches one non-blocking block_write per
update intent and records the token of each launch; delete and touch
intents launch nothing.  Returns one optional token per intent, in intent
order, and the threaded state. -/
def launch_all (s : SerializerState) (writes : List write_t) (io_account : Nat) :
    List (Option standard_block_token_t) × SerializerState :=
  match writes with
  | [] => ([], s)
  | w :: ws =>
    match w.action with
    | .update buf _ =>
      let launched := block_write s buf (some w.block_id) io_account
      let rest := launch_all launched.2.2 ws io_account
      (some launched.1 :: rest.1, rest.2)
    | _ =>
      let rest := launch_all s ws io_account
      (none :: rest.1, rest.2)

/-- Modelled from the spec: phase 3 of do_write builds one
index_write_op_t per intent: update sets token and recency, delete sets
the token to none and the delete bit to true, touch sets only the
recency. -/
def build_index_op (w : write_t) (tok : Option standard_block_token_t) :
    index_write_op_t :=
  match w.action with
  | .update _ recency =>
    { block_id := w.block_id, token := some tok, recency := some recency }
  | .delete =>
    { block_id := w.block_id, token := some none, delete_bit := some true }
  | .touch recency =>
    { block_id := w.block_id, recency := some recency }

/-- The batch of index write ops a do_write call submits. -/
def do_write_ops (s : SerializerState) (writes : List write_t) (io_account : Nat) :
    List index_write_op_t :=
  List.zipWith build_index_op writes (launch_all s writes io_account).1

/-- do_write waits for the completions of the writes it launched before
returning ("Returns when all writes are finished", serializer.hpp line
135). -/
def drain_writes (s : SerializerState)
    (toks : List (Option standard_block_token_t)) : SerializerState :=
  toks.foldl (fun st t => match t with
    | some tok => wait_for_completion st tok
    | none => st) s

/-- Modelled from the spec: do_write (serializer.hpp line 141; body in
serializer.cc, not in this tree) is implemented in terms of block_write
and index_write: launch every update's block write, wait until every
launched write's token is known (tokens are known at launch here), submit
one index_write_op_t per intent as a single index_write batch, and return
only once that batch is committed and the launched writes finished. -/
def do_write (s : SerializerState) (writes : List write_t) (io_account : Nat) :
    SerializerState :=
  let launched := launch_all s writes io_account
  let ops := List.zipWith build_index_op writes launched.1
  drain_writes (index_write launched.2 ops io_account) launched.1

/-- One externally initiated serializer operation, for traces of a
serializer instance: an index_write batch, a block_write launch, or a
completion callback firing. -/
inductive SerOp
  | iwrite (ops : List index_write_op_t) (io_account : Nat)
  | bwrite (buf : List Nat) (obid : Option block_id_t) (io_account : Nat)
  | complete (token : standard_block_token_t)

/-- The state transition of one serializer operation. -/
def step (s : SerializerState) (op : SerOp) : SerializerState :=
  match op with
  | .iwrite ops io_account => index_write s ops io_account
  | .bwrite buf obid io_account => (block_write s buf obid io_account).2.2
  | .complete token => wait_for_completion s token

/-- Running a trace of serializer operations from a state.  The states
observable during the trace are exactly the states reached by its
take-prefixes. -/
def runTrace (s : SerializerState) (tr : List SerOp) : SerializerState :=
  tr.foldl step s

/-- Whether a serializer operation writes the index entry of the given
block id. -/
def op_touches_index (op : SerOp) (id : block_id_t) : Bool :=
  match op with
  | .iwrite ops _ => ops.any (fun o => o.block_id = id)
  | _ => false

/-- Writing K new blocks with no explicit id: one block_write with omitted
block id per buffer, collecting the freshly assigned ids. -/
def write_new_blocks (s : SerializerState) (bufs : List (List Nat))
    (io_account : Nat) : List block_id_t × SerializerState :=
  match bufs with
  | [] => ([], s)
  | b :: bs =>
    let launched := block_write s b none io_account
    let rest := write_new_blocks launched.2.2 bs io_account
    (launched.2.1 :: rest.1, rest.2)

/-- The mapping from a write intent to its index_write_op_t, as the spec
states it: same block id; update sets a token and the recency and leaves
the delete bit; delete clears the token, sets the delete bit and leaves
the recency; touch sets only the recency. -/
def opMatches (w : write_t) (op : index_write_op_t) : Prop :=
  op.block_id = w.block_id ∧
  match w.action with
  | .update _ recency =>
    (∃ t, op.token = some (some t)) ∧ op.recency = some recency ∧ op.delete_bit = none
  | .delete =>
    op.token = some none ∧ op.recency = none ∧ op.delete_bit = some true
  | .touch recency =>
    op.token = none ∧ op.recency = some recency ∧ op.delete_bit = none

/-! Helper lemmas about the index transition. -/

/-- An index write op leaves every other block id's entry unchanged. -/
theorem apply_write_op_ne (ix : block_id_t → index_entry_t)
    (op : index_write_op_t) (id : block_id_t) (h : id ≠ op.block_id) :
    apply_write_op ix op id = ix id := by
  simp [apply_write_op, h]

/-- A batch none of whose ops name the given block id leaves its entry
unchanged. -/
theorem index_apply_ops_untouched (ops : List index_write_op_t) :
    ∀ (ix : block_id_t → index_entry_t) (id : block_id_t),
    (∀ op ∈ ops, op.block_id ≠ id) → index_apply_ops ix ops id = ix id := by
  induction ops with
  | nil => intro ix id _; rfl
  | cons o os ih =>
    intro ix id h
    have hstep : index_apply_ops ix (o :: os) = index_apply_ops (apply_write_op ix o) os := rfl
    rw [hstep, ih _ _ (fun op hop => h op (List.mem_cons_of_mem _ hop))]
    exact apply_write_op_ne ix o id (fun he => h o (List.mem_cons_self _ _) he.symm)

/-- An op that sets none of the three fields is the identity on the
index. -/
theorem apply_write_op_noop (ix : block_id_t → index_entry_t) (id : block_id_t) :
    apply_write_op ix { block_id := id } = ix := by
  funext j
  by_cases h : j = id
  · subst h; simp [apply_write_op, apply_to_entry]
  · exact apply_write_op_ne ix _ j h

/-- C9: An IndexWriteOp constructed from a block id alone (token, recency
and delete bit all "leave unchanged") is legal in an index_write batch:
it leaves that block id's entry identical, and inserting it anywhere in a
batch does not alter the batch's effect on any entry. -/
theorem c9_noop_op_legal (id : block_id_t) (s : SerializerState) (acct : Nat)
    (ops1 ops2 : List index_write_op_t) (j : block_id_t) :
    (index_write s [{ block_id := id }] acct).index j = s.index j ∧
    (index_write s (ops1 ++ { block_id := id } :: ops2) acct).index j =
      (index_write s (ops1 ++ ops2) acct).index j := by
  constructor
  · show index_apply_ops s.index [{ block_id := id }] j = s.index j
    show apply_write_op s.index { block_id := id } j = s.index j
    rw [apply_write_op_noop]
  · show index_apply_ops s.index (ops1 ++ { block_id := id } :: ops2) j
      = index_apply_ops s.index (ops1 ++ ops2) j
    unfold index_apply_ops
    rw [List.foldl_append, List.foldl_append, List.foldl_cons, apply_write_op_noop]

/-- C10: the serializer_index_write helper is exactly index_write on the
one-element batch holding its op, and its effect on the index is the
effect of that single op. -/
theorem c10_serializer_index_write_singleton (s : SerializerState)
    (op : index_write_op_t) (acct : Nat) :
    serializer_index_write s op acct = index_write s [op] acct ∧
    ∀ j, (serializer_index_write s op acct).index j = apply_write_op s.index op j := by
  exact ⟨rfl, fun j => rfl⟩

/-- C8: the blocking serializer_block_write returns exactly the token the
non-blocking block_write launch produced, its final state is the launch
state after waiting for that write's completion, and (whenever the
pending set only holds previously issued tokens) the completion has fired
by the time it returns. -/
theorem c8_blocking_block_write (s : SerializerState) (buf : List Nat)
    (obid : Option block_id_t) (acct : Nat) :
    (serializer_block_write s buf obid acct).1 = (block_write s buf obid acct).1 ∧
    (serializer_block_write s buf obid acct).2 =
      wait_for_completion (block_write s buf obid acct).2.2 (block_write s buf obid acct).1 ∧
    ((∀ t ∈ s.pending, t < s.store.length) →
      (block_write s buf obid acct).1 ∉ (serializer_block_write s buf obid acct).2.pending) := by
  refine ⟨rfl, rfl, fun h => ?_⟩
  have hnot : s.store.length ∉ s.pending := fun hm => lt_irrefl _ (h _ hm)
  show s.store.length ∉ ((s.pending ++ [s.store.length]).erase s.store.length)
  rw [List.erase_append_right _ hnot, List.erase_cons_head]
  simpa using hnot

/-- C8 witness: on a fresh serializer the blocking write returns the
launch token and its completion has fired. -/
theorem c8_witness :
    (serializer_block_write (initState 4) [1, 2, 3, 4] none 0).1 =
      (block_write (initState 4) [1, 2, 3, 4] none 0).1 ∧
    (block_write (initState 4) [1, 2, 3, 4] none 0).1 ∉
      (serializer_block_write (initState 4) [1, 2, 3, 4] none 0).2.pending :=
  ⟨(c8_blocking_block_write _ _ _ _).1,
   (c8_blocking_block_write _ _ _ _).2.2 (by intro t ht; simp [initState] at ht)⟩

/-- C5: reading back through the token returned by writing a buffer of
the serializer's block size yields that buffer. -/
theorem c5_round_trip (s : SerializerState) (buf : List Nat)
    (obid : Option block_id_t) (acct : Nat)
    (_hsize : buf.length = get_block_size s) :
    block_read (block_write s buf obid acct).2.2 (block_write s buf obid acct).1 =
      some buf := by
  show (s.store ++ [buf])[s.store.length]? = some buf
  exact List.getElem?_concat_length s.store buf

/-- C5 witness: the round trip at a concrete two-byte block. -/
theorem c5_witness :
    block_read (block_write (initState 2) [171, 171] none 0).2.2
        (block_write (initState 2) [171, 171] none 0).1 = some [171, 171] :=
  c5_round_trip (initState 2) [171, 171] none 0 (by rfl)

/-- A trace none of whose operations writes the index entry of a block id
leaves that entry unchanged. -/
theorem runTrace_index_untouched (tr : List SerOp) :
    ∀ (s : SerializerState) (id : block_id_t),
    (∀ op ∈ tr, op_touches_index op id = false) →
    (runTrace s tr).index id = s.index id := by
  induction tr with
  | nil => intro s id _; rfl
  | cons op tr ih =>
    intro s id h
    have htl : ∀ o ∈ tr, op_touches_index o id = false :=
      fun o ho => h o (List.mem_cons_of_mem _ ho)
    have hrun : runTrace s (op :: tr) = runTrace (step s op) tr := rfl
    rw [hrun, ih _ _ htl]
    cases op with
    | iwrite ops acct =>
      have hhd := h _ (List.mem_cons_self _ _)
      simp only [op_touches_index, List.any_eq_false, decide_eq_true_eq] at hhd
      exact index_apply_ops_untouched ops s.index id hhd
    | bwrite buf obid acct => rfl
    | complete token => rfl

/-- C7: for a block id never written in a serializer instance's trace,
get_recency returns the distinguished invalid recency and get_delete_bit
returns false; both calls are total. -/
theorem c7_unknown_id_defaults (bs : Nat) (tr : List SerOp) (id : block_id_t)
    (h : ∀ op ∈ tr, op_touches_index op id = false) :
    get_recency (runTrace (initState bs) tr) id = repli_timestamp_invalid ∧
    get_delete_bit (runTrace (initState bs) tr) id = false := by
  have hix : (runTrace (initState bs) tr).index id = default_entry :=
    runTrace_index_untouched tr (initState bs) id h
  unfold get_recency get_delete_bit
  rw [hix]
  exact ⟨rfl, rfl⟩

/-- C7 witness: a trace that writes blocks 0 and 2 leaves block 7 at the
defaults. -/
theorem c7_witness :
    get_recency (runTrace (initState 4)
        [SerOp.bwrite [5, 5, 5, 5] none 0, SerOp.iwrite [{ block_id := 2 }] 0]) 7 =
      repli_timestamp_invalid ∧
    get_delete_bit (runTrace (initState 4)
        [SerOp.bwrite [5, 5, 5, 5] none 0, SerOp.iwrite [{ block_id := 2 }] 0]) 7 =
      false :=
  c7_unknown_id_defaults 4 _ 7 (by decide)

/-- The id bound computed by an index_write batch only grows. -/
theorem bump_le (ops : List index_write_op_t) :
    ∀ m : Nat, m ≤ ops.foldl (fun a o => max a (o.block_id + 1)) m := by
  induction ops with
  | nil => intro m; exact le_refl m
  | cons o os ih =>
    intro m
    exact le_trans (le_max_left m (o.block_id + 1)) (ih _)

/-- Applying a batch keeps every non-default entry's id below the bumped
bound. -/
theorem index_apply_ops_bound (ops : List index_write_op_t) :
    ∀ (ix : block_id_t → index_entry_t) (m : Nat),
    (∀ id, ix id ≠ default_entry → id < m) →
    ∀ id, index_apply_ops ix ops id ≠ default_entry →
      id < ops.foldl (fun a o => max a (o.block_id + 1)) m := by
  induction ops with
  | nil => intro ix m h id hd; exact h id hd
  | cons o os ih =>
    intro ix m h id hd
    refine ih (apply_write_op ix o) (max m (o.block_id + 1)) ?_ id hd
    intro j hj
    by_cases hb : j = o.block_id
    · rw [hb]
      exact lt_of_lt_of_le (Nat.lt_succ_self _) (le_max_right m (o.block_id + 1))
    · rw [apply_write_op_ne ix o j hb] at hj
      exact lt_of_lt_of_le (h j hj) (le_max_left m (o.block_id + 1))

/-- C6: max_block_id is non-decreasing across every serializer operation,
it stays a strict exclusive upper bound on the ids of all existing
blocks, and after writing K new blocks with no explicit id it is at least
its prior value and at least every freshly assigned id plus one. -/
theorem c6_max_block_id_monotone :
    (∀ (s : SerializerState) (op : SerOp), max_block_id s ≤ max_block_id (step s op)) ∧
    (∀ (s : SerializerState) (op : SerOp),
      (∀ id, s.index id ≠ default_entry → id < max_block_id s) →
      ∀ id, (step s op).index id ≠ default_entry → id < max_block_id (step s op)) ∧
    (∀ (s : SerializerState) (bufs : List (List Nat)) (acct : Nat),
      max_block_id s ≤ max_block_id (write_new_blocks s bufs acct).2 ∧
      ∀ id ∈ (write_new_blocks s bufs acct).1,
        id + 1 ≤ max_block_id (write_new_blocks s bufs acct).2) := by
  refine ⟨?_, ?_, ?_⟩
  · intro s op
    cases op with
    | iwrite ops acct => exact bump_le ops s.next_block_id
    | bwrite buf obid acct =>
      cases obid with
      | none => exact Nat.le_succ _
      | some bid => exact le_refl _
    | complete token => exact le_refl _
  · intro s op h id hd
    cases op with
    | iwrite ops acct => exact index_apply_ops_bound ops s.index s.next_block_id h id hd
    | bwrite buf obid acct =>
      have hid : id < s.next_block_id := h id hd
      cases obid with
      | none => exact lt_of_lt_of_le hid (Nat.le_succ _)
      | some bid => exact hid
    | complete token => exact h id hd
  · intro s bufs
    induction bufs generalizing s with
    | nil => intro acct; exact ⟨le_refl _, by intro id hid; cases hid⟩
    | cons b bs ih =>
      intro acct
      have hrec := ih (block_write s b none acct).2.2 acct
      constructor
      · exact le_trans (Nat.le_succ _) hrec.1
      · intro id hid
        have hmem : id = s.next_block_id ∨ id ∈ (write_new_blocks (block_write s b none acct).2.2 bs acct).1 := by
          simpa [write_new_blocks, block_write] using hid
        cases hmem with
        | inl he => rw [he]; exact hrec.1
        | inr hm => exact hrec.2 id hm

/-- C6 witness: on a fresh serializer one anonymous block write keeps the
bound, after an index_write marking block 0 the bound strictly exceeds 0,
and after writing three new blocks the second assigned id is below the
bound. -/
theorem c6_witness :
    max_block_id (initState 8) ≤ max_block_id (step (initState 8) (SerOp.bwrite [9] none 0)) ∧
    0 < max_block_id (step (initState 8)
      (SerOp.iwrite [{ block_id := 0, delete_bit := some true }] 0)) ∧
    1 + 1 ≤ max_block_id (write_new_blocks (initState 8) [[1], [2], [3]] 0).2 :=
  ⟨c6_max_block_id_monotone.1 (initState 8) (SerOp.bwrite [9] none 0),
   c6_max_block_id_monotone.2.1 (initState 8)
     (SerOp.iwrite [{ block_id := 0, delete_bit := some true }] 0)
     (fun _ h => absurd rfl h) 0
     (by simp [step, index_write, index_apply_ops, apply_write_op, apply_to_entry,
               initState, default_entry]),
   (c6_max_block_id_monotone.2.2 (initState 8) [[1], [2], [3]] 0).2 1
     (by simp [write_new_blocks, block_write, initState])⟩

/-- C1: index_write applies its whole batch as one transition — the index
after it is the effect of all ops in order — and in any trace around an
index_write every observable state (a take-prefix of the trace) is either
a state from before the batch was submitted or a state in which the whole
batch has been applied on top of the pre-batch state; no observable state
reflects only a proper subset of the batch. -/
theorem c1_index_write_atomic :
    (∀ (s : SerializerState) (ops : List index_write_op_t) (acct : Nat),
      (index_write s ops acct).index = index_apply_ops s.index ops) ∧
    (∀ (s₀ : SerializerState) (pre : List SerOp) (ops : List index_write_op_t)
      (acct : Nat) (suf : List SerOp) (k : Nat),
      runTrace s₀ ((pre ++ SerOp.iwrite ops acct :: suf).take k) = runTrace s₀ (pre.take k) ∨
      ∃ j, runTrace s₀ ((pre ++ SerOp.iwrite ops acct :: suf).take k) =
        runTrace (index_write (runTrace s₀ pre) ops acct) (suf.take j)) := by
  constructor
  · intro s ops acct
    rfl
  · intro s₀ pre ops acct suf k
    by_cases hk : k ≤ pre.length
    · left
      rw [List.take_append_of_le_length hk]
    · right
      refine ⟨k - pre.length - 1, ?_⟩
      have hlt : pre.length < k := not_le.mp hk
      have h1 : (pre ++ SerOp.iwrite ops acct :: suf).take k
          = pre ++ SerOp.iwrite ops acct :: suf.take (k - pre.length - 1) := by
        rw [List.take_append_eq_append_take, List.take_of_length_le (le_of_lt hlt)]
        obtain ⟨n, hn⟩ : ∃ n, k - pre.length = n + 1 := ⟨k - pre.length - 1, by omega⟩
        rw [hn]
        simp [List.take_succ_cons]
      rw [h1]
      show List.foldl step s₀ (pre ++ SerOp.iwrite ops acct :: suf.take (k - pre.length - 1)) = _
      rw [List.foldl_append]
      rfl

/-- Every left element of a Forall₂ pair has a related right element. -/
theorem forall2_mem_left {α β : Type} {R : α → β → Prop} :
    ∀ {l₁ : List α} {l₂ : List β}, List.Forall₂ R l₁ l₂ →
    ∀ a ∈ l₁, ∃ b ∈ l₂, R a b := by
  intro l₁ l₂ h
  induction h with
  | nil => intro a ha; cases ha
  | cons hR hF ih =>
    intro a ha
    rcases List.mem_cons.mp ha with he | hm
    · exact ⟨_, List.mem_cons_self _ _, by rw [he]; exact hR⟩
    · obtain ⟨b, hb, hRb⟩ := ih a hm
      exact ⟨b, List.mem_cons_of_mem _ hb, hRb⟩

/-- Every right element of a Forall₂ pair has a related left element. -/
theorem forall2_mem_right {α β : Type} {R : α → β → Prop} :
    ∀ {l₁ : List α} {l₂ : List β}, List.Forall₂ R l₁ l₂ →
    ∀ b ∈ l₂, ∃ a ∈ l₁, R a b := by
  intro l₁ l₂ h
  induction h with
  | nil => intro b hb; cases hb
  | cons hR hF ih =>
    intro b hb
    rcases List.mem_cons.mp hb with he | hm
    · exact ⟨_, List.mem_cons_self _ _, by rw [he]; exact hR⟩
    · obtain ⟨a, ha, hRa⟩ := ih b hm
      exact ⟨a, List.mem_cons_of_mem _ ha, hRa⟩

/-- do_write builds one index_write_op_t per intent, related by the
update/delete/touch mapping. -/
theorem do_write_ops_forall2 (acct : Nat) :
    ∀ (writes : List write_t) (s : SerializerState),
    List.Forall₂ opMatches writes (do_write_ops s writes acct) := by
  intro writes
  induction writes with
  | nil => intro s; exact List.Forall₂.nil
  | cons w ws ih =>
    intro s
    obtain ⟨bid, act⟩ := w
    cases act with
    | update buf r => exact List.Forall₂.cons ⟨rfl, ⟨_, rfl⟩, rfl, rfl⟩ (ih _)
    | delete => exact List.Forall₂.cons ⟨rfl, rfl, rfl, rfl⟩ (ih _)
    | touch r => exact List.Forall₂.cons ⟨rfl, rfl, rfl, rfl⟩ (ih _)

/-- C2: do_write builds exactly one IndexWriteOp per intent under the
update/delete/touch mapping (Forall₂ also forces the two lists to have
the same length), and it is the composition of launching the update
writes, submitting all the built ops as one index_write batch, and
waiting for the launched writes before returning. -/
theorem c2_do_write_batch (s : SerializerState) (writes : List write_t) (acct : Nat) :
    List.Forall₂ opMatches writes (do_write_ops s writes acct) ∧
    do_write s writes acct =
      drain_writes
        (index_write (launch_all s writes acct).2 (do_write_ops s writes acct) acct)
        (launch_all s writes acct).1 :=
  ⟨do_write_ops_forall2 acct writes s, rfl⟩

/-- Launching the block writes of a grouped write does not change the
index. -/
theorem launch_all_index (writes : List write_t) :
    ∀ (s : SerializerState) (acct : Nat),
    (launch_all s writes acct).2.index = s.index := by
  induction writes with
  | nil => intro s acct; rfl
  | cons w ws ih =>
    intro s acct
    obtain ⟨bid, act⟩ := w
    cases act with
    | update buf r => exact ih _ _
    | delete => exact ih _ _
    | touch r => exact ih _ _

/-- Waiting for completions does not change the index. -/
theorem drain_writes_index (toks : List (Option standard_block_token_t)) :
    ∀ s : SerializerState, (drain_writes s toks).index = s.index := by
  induction toks with
  | nil => intro s; rfl
  | cons t ts ih =>
    intro s
    cases t with
    | none => exact ih s
    | some tok => exact ih _

/-- The index after a do_write is the index before it with the built
batch applied. -/
theorem do_write_index (s : SerializerState) (writes : List write_t) (acct : Nat) :
    (do_write s writes acct).index =
      index_apply_ops s.index (do_write_ops s writes acct) := by
  show (drain_writes
      (index_write (launch_all s writes acct).2 (do_write_ops s writes acct) acct)
      (launch_all s writes acct).1).index = _
  rw [drain_writes_index]
  show index_apply_ops (launch_all s writes acct).2.index (do_write_ops s writes acct) = _
  rw [launch_all_index]

/-- The index_write_op_t a delete intent is compiled to. -/
def delete_op (id : block_id_t) : index_write_op_t :=
  { block_id := id, token := some none, delete_bit := some true }

/-- Once a block id's entry has no token and a set delete bit, a batch
whose only ops for that id are delete ops keeps it that way. -/
theorem index_apply_ops_delete_stable (ops : List index_write_op_t) :
    ∀ (ix : block_id_t → index_entry_t) (id : block_id_t),
    (∀ op ∈ ops, op.block_id = id → op = delete_op id) →
    (ix id).token = none → (ix id).delete_bit = true →
    (index_apply_ops ix ops id).token = none ∧
    (index_apply_ops ix ops id).delete_bit = true := by
  induction ops with
  | nil => intro ix id _ h1 h2; exact ⟨h1, h2⟩
  | cons o os ih =>
    intro ix id hall h1 h2
    have htl := fun op hop => hall op (List.mem_cons_of_mem _ hop)
    by_cases hb : o.block_id = id
    · have ho : o = delete_op id := hall o (List.mem_cons_self _ _) hb
      refine ih (apply_write_op ix o) id htl ?_ ?_
      · rw [ho]; simp [apply_write_op, apply_to_entry, delete_op]
      · rw [ho]; simp [apply_write_op, apply_to_entry, delete_op]
    · refine ih (apply_write_op ix o) id htl ?_ ?_
      · rw [apply_write_op_ne ix o id (fun h => hb h.symm)]; exact h1
      · rw [apply_write_op_ne ix o id (fun h => hb h.symm)]; exact h2

/-- A batch containing a delete op for a block id, and no other kind of
op for it, leaves that id with no token and a set delete bit. -/
theorem index_apply_ops_all_delete (ops : List index_write_op_t) :
    ∀ (ix : block_id_t → index_entry_t) (id : block_id_t),
    (∀ op ∈ ops, op.block_id = id → op = delete_op id) →
    (∃ op ∈ ops, op.block_id = id) →
    (index_apply_ops ix ops id).token = none ∧
    (index_apply_ops ix ops id).delete_bit = true := by
  induction ops with
  | nil => intro ix id _ hex; obtain ⟨op, hop, _⟩ := hex; cases hop
  | cons o os ih =>
    intro ix id hall hex
    have htl := fun op hop => hall op (List.mem_cons_of_mem _ hop)
    by_cases hb : o.block_id = id
    · have ho : o = delete_op id := hall o (List.mem_cons_self _ _) hb
      refine index_apply_ops_delete_stable os (apply_write_op ix o) id htl ?_ ?_
      · rw [ho]; simp [apply_write_op, apply_to_entry, delete_op]
      · rw [ho]; simp [apply_write_op, apply_to_entry, delete_op]
    · obtain ⟨op, hop, hid⟩ := hex
      rcases List.mem_cons.mp hop with he | hm
      · exact absurd (he ▸ hid) hb
      · exact ih (apply_write_op ix o) id htl ⟨op, hm, hid⟩

/-- C3: after a grouped write whose intents for a block id are delete
(and at least one delete intent for it is present) commits, index_read
of that id returns none and get_delete_bit returns true. -/
theorem c3_delete_clears (s : SerializerState) (writes : List write_t) (acct : Nat)
    (id : block_id_t)
    (hdel : write_t.make_delete id ∈ writes)
    (honly : ∀ w ∈ writes, w.block_id = id → w.action = .delete) :
    index_read (do_write s writes acct) id = none ∧
    get_delete_bit (do_write s writes acct) id = true := by
  have F := do_write_ops_forall2 acct writes s
  have hex : ∃ op ∈ do_write_ops s writes acct, op.block_id = id := by
    obtain ⟨op, hop, hR⟩ := forall2_mem_left F _ hdel
    exact ⟨op, hop, hR.1⟩
  have hall : ∀ op ∈ do_write_ops s writes acct, op.block_id = id → op = delete_op id := by
    intro op hop hid
    obtain ⟨w, hw, hR⟩ := forall2_mem_right F op hop
    obtain ⟨wb, wa⟩ := w
    have hwb : wb = id := hR.1.symm.trans hid
    have hact : wa = write_action_t.delete := honly ⟨wb, wa⟩ hw hwb
    subst hact
    obtain ⟨hbid, htok, hrec, hdb⟩ := hR
    obtain ⟨ob, ot, orc, od⟩ := op
    simp only at hbid htok hrec hdb hid
    subst htok hrec hdb hid
    rfl
  unfold index_read get_delete_bit
  rw [do_write_index]
  exact index_apply_ops_all_delete _ s.index id hall hex

/-- C3 witness: a grouped write deleting block 3 on a fresh serializer. -/
theorem c3_witness :
    index_read (do_write (initState 4) [write_t.make_delete 3] 0) 3 = none ∧
    get_delete_bit (do_write (initState 4) [write_t.make_delete 3] 0) 3 = true :=
  c3_delete_clears (initState 4) [write_t.make_delete 3] 0 3
    (List.mem_singleton.mpr rfl)
    (fun w hw _ => by rw [List.mem_singleton.mp hw]; rfl)

/-- C4: a touch intent committed through do_write changes only the
recency of its block id's entry: the token and delete bit are unchanged,
the recency becomes the touched value, and every other block id's entry
is unchanged. -/
theorem c4_touch_preserves (s : SerializerState) (id : block_id_t)
    (r : repli_timestamp_t) (acct : Nat) :
    index_read (do_write s [write_t.make_touch id r] acct) id = index_read s id ∧
    get_delete_bit (do_write s [write_t.make_touch id r] acct) id = get_delete_bit s id ∧
    get_recency (do_write s [write_t.make_touch id r] acct) id = r ∧
    ∀ j, j ≠ id → (do_write s [write_t.make_touch id r] acct).index j = s.index j := by
  have hops : do_write_ops s [write_t.make_touch id r] acct
      = [{ block_id := id, recency := some r }] := rfl
  have hj : ∀ j, (do_write s [write_t.make_touch id r] acct).index j
      = if j = id then
          { token := (s.index j).token, recency := r,
            delete_bit := (s.index j).delete_bit }
        else s.index j := by
    intro j
    rw [do_write_index, hops]
    by_cases hjid : j = id
    · simp [index_apply_ops, apply_write_op, apply_to_entry, hjid]
    · simp [index_apply_ops, apply_write_op, apply_to_entry, hjid]
  refine ⟨?_, ?_, ?_, ?_⟩
  · show ((do_write s [write_t.make_touch id r] acct).index id).token = (s.index id).token
    rw [hj id]; simp
  · show ((do_write s [write_t.make_touch id r] acct).index id).delete_bit
      = (s.index id).delete_bit
    rw [hj id]; simp
  · show ((do_write s [write_t.make_touch id r] acct).index id).recency = r
    rw [hj id]; simp
  · intro j hjid
    rw [hj j]
    simp [hjid]

/-- C4 witness: touching block 2 on a fresh serializer keeps its token
and leaves block 1's entry unchanged. -/
theorem c4_witness :
    index_read (do_write (initState 4) [write_t.make_touch 2 (some 5)] 0) 2 =
      index_read (initState 4) 2 ∧
    (do_write (initState 4) [write_t.make_touch 2 (some 5)] 0).index 1 =
      (initState 4).index 1 :=
  ⟨(c4_touch_preserves (initState 4) 2 (some 5) 0).1,
   (c4_touch_preserves (initState 4) 2 (some 5) 0).2.2.2 1 (by decide)⟩
